import Mathlib

/-!
# Verification of `wsh.py` (betting-odds dashboard)

A shallow embedding of the data model and operations of `src/wsh.py`:
match records, the per-cell style function `color_odds`, the statistics
computation `get_statistics` (pandas `mean`, `idxmax`, `max`, Python
`round(_, 2)`), the league and threshold filters, and the CSV download
(`to_csv(index=False)` / `read_csv`).  Numeric cells are modelled as
rationals; pandas operations that raise on empty input are modelled with
`Option`.
-/

namespace Wsh

/-- One row of the spreadsheet: a Match Record. -/
structure Record where
  fixture : String
  league : String
  match_xg : ℚ
  ex_bookings : ℚ
  ex_corners : ℚ
deriving DecidableEq, Repr

/-- The statistics dictionary produced by `get_statistics`. -/
structure Stats where
  avg_match_xg : ℚ
  avg_bookings : ℚ
  avg_corners : ℚ
  highest_xg_match : String
  highest_xg_value : ℚ
deriving DecidableEq, Repr

/-- `color_odds` from `style_dataframe` in `wsh.py`: the per-cell style
function.  The source has three branches (`val > 5`, `val > 3`, else) but
every branch returns the same style string. -/
def color_odds (val : ℚ) : String :=
  if val > 5 then "background-color: #7A1CAC; color: white"
  else if val > 3 then "background-color: #7A1CAC; color: white"
  else "background-color: #7A1CAC; color: white"

/-- pandas `Series.mean()`: sum divided by count. -/
def colMean (xs : List ℚ) : ℚ := xs.sum / xs.length

/-- pandas `Series.max()` on a non-empty series; the `[]` case never
arises in the program (pandas would give `NaN` there). -/
def seriesMax : List ℚ → ℚ
  | [] => 0
  | x :: xs => xs.foldl max x

/-- pandas `Series.min()` on a non-empty series; the `[]` case never
arises in the program (pandas would give `NaN` there). -/
def seriesMin : List ℚ → ℚ
  | [] => 0
  | x :: xs => xs.foldl min x

/-- The record at pandas `df['match_xg'].idxmax()` relative to a current
best: pandas keeps the first occurrence of the maximum, so the best is
replaced only on a strictly larger value. -/
def argmaxFrom (best : Record) : List Record → Record
  | [] => best
  | r :: rest => if best.match_xg < r.match_xg then argmaxFrom r rest else argmaxFrom best rest

/-- Python `round(q*100)` to an integer, ties to even (banker's rounding),
used to model `round(x, 2)` at the integer scale. -/
def roundHalfEven (q : ℚ) : ℤ :=
  if q - (⌊q⌋ : ℚ) < 1/2 then ⌊q⌋
  else if (1 : ℚ)/2 < q - (⌊q⌋ : ℚ) then ⌊q⌋ + 1
  else if ⌊q⌋ % 2 = 0 then ⌊q⌋ else ⌊q⌋ + 1

/-- Python `round(q, 2)`: round to the nearest multiple of `1/100`, ties
to even. -/
def round2 (q : ℚ) : ℚ := (roundHalfEven (q * 100) : ℚ) / 100

/-- `get_statistics` from `wsh.py`.  The source builds a dict whose
values are `round(mean, 2)` for the three columns, the fixture at
`idxmax` of `match_xg`, and `round(max, 2)`.  On an empty frame pandas
`idxmax` raises `ValueError`, modelled as `none`. -/
def get_statistics (rs : List Record) : Option Stats :=
  match rs with
  | [] => none
  | r :: rest =>
    some {
      avg_match_xg := round2 (colMean ((r :: rest).map Record.match_xg))
      avg_bookings := round2 (colMean ((r :: rest).map Record.ex_bookings))
      avg_corners := round2 (colMean ((r :: rest).map Record.ex_corners))
      highest_xg_match := (argmaxFrom r rest).fixture
      highest_xg_value := round2 (seriesMax ((r :: rest).map Record.match_xg)) }

/-- The league selection from `main` in `wsh.py`: `none` models the
`'All'` choice (no filtering), `some lg` models
`data[data['league'] == selected_league]`. -/
def league_filter (sel : Option String) (rs : List Record) : List Record :=
  match sel with
  | none => rs
  | some lg => rs.filter (fun r => r.league == lg)

/-- The threshold filter of `add_search_filters` in `wsh.py`:
`data[(data['match_xg'] >= min_xg) & (data['ex_bookings'] >= min_bookings)]`. -/
def add_search_filters (min_xg min_bookings : ℚ) (rs : List Record) : List Record :=
  rs.filter (fun r => decide (min_xg ≤ r.match_xg) && decide (min_bookings ≤ r.ex_bookings))

/-- A filter specification: league choice plus the two slider minima. -/
structure FilterSpec where
  league : Option String
  min_xg : ℚ
  min_bookings : ℚ

/-- The full filtering pipeline of `wsh.py`: the league filter from
`main` followed by the threshold filter of `add_search_filters`. -/
def apply_filters (spec : FilterSpec) (rs : List Record) : List Record :=
  add_search_filters spec.min_xg spec.min_bookings (league_filter spec.league rs)

/-- The conjunction predicate the two filter stages implement. -/
def filter_pred (spec : FilterSpec) (r : Record) : Bool :=
  (match spec.league with
   | none => true
   | some lg => r.league == lg)
  && decide (spec.min_xg ≤ r.match_xg) && decide (spec.min_bookings ≤ r.ex_bookings)

/-- A raw spreadsheet as the reader sees it: column names plus rows of
cells.  Only the column names matter for the loader claims. -/
structure RawTable where
  cols : List String
  rows : List (List String)
deriving DecidableEq, Repr

/-- The error the spreadsheet reader can raise. -/
inductive LoadErr where
  | fileNotFound
deriving DecidableEq, Repr

/-- pandas `read_excel`: raises `FileNotFoundError` when the file is
missing (`none`), otherwise returns the table exactly as stored, with no
schema checking of its own. -/
def read_excel (file : Option RawTable) : Except LoadErr RawTable :=
  match file with
  | none => Except.error LoadErr.fileNotFound
  | some t => Except.ok t

/-- `load_data` from `wsh.py`: `df = pd.read_excel("all_matches.xlsx"); return df`.
It adds nothing to the reader: no column validation, no error wrapping. -/
def load_data (file : Option RawTable) : Except LoadErr RawTable :=
  read_excel file

/-! ### CSV download model

`main` ends with `csv = filtered_data.to_csv(index=False).encode('utf-8')`
offered by `st.download_button(..., "filtered_odds_data.csv", "text/csv")`.
The serializer and re-parser below model pandas `to_csv` (minimal
quoting, `\n` line terminator, one header row) and `read_csv` at the
level of text cells; cells are lists of characters. -/

/-- The CSV quote character. -/
def quoteChar : Char := Char.ofNat 34

/-- The CSV delimiter. -/
def commaChar : Char := Char.ofNat 44

/-- The line terminator pandas `to_csv` writes. -/
def nlChar : Char := Char.ofNat 10

/-- The carriage return, also forcing quoting. -/
def crChar : Char := Char.ofNat 13

/-- pandas quotes a cell (QUOTE_MINIMAL) iff it holds a delimiter, a
quote, or a line break. -/
def needsQuote (c : List Char) : Bool :=
  c.any (fun ch => ch == commaChar || ch == quoteChar || ch == nlChar || ch == crChar)

/-- Double every quote inside a quoted cell body. -/
def escQuotes : List Char → List Char
  | [] => []
  | ch :: rest =>
    if ch = quoteChar then quoteChar :: quoteChar :: escQuotes rest
    else ch :: escQuotes rest

/-- Serialize one cell: wrap in quotes (doubling inner quotes) only when
needed. -/
def escCell (c : List Char) : List Char :=
  if needsQuote c then quoteChar :: (escQuotes c ++ [quoteChar]) else c

/-- Serialize one row: cells joined by the delimiter. -/
def serRow : List (List Char) → List Char
  | [] => []
  | [c] => escCell c
  | c :: rest => escCell c ++ commaChar :: serRow rest

/-- pandas `to_csv`: every row (header first) followed by a line
terminator. -/
def to_csv : List (List (List Char)) → List Char
  | [] => []
  | row :: rows => serRow row ++ nlChar :: to_csv rows

/-- Parse a quoted cell body: stop at the closing quote, undouble inner
quotes. -/
def parseQuoted : List Char → List Char × List Char
  | [] => ([], [])
  | ch :: rest =>
    if ch = quoteChar then
      match rest with
      | [] => ([], [])
      | ch2 :: rest2 =>
        if ch2 = quoteChar then
          let p := parseQuoted rest2
          (quoteChar :: p.1, p.2)
        else ([], ch2 :: rest2)
    else
      let p := parseQuoted rest
      (ch :: p.1, p.2)

/-- Parse an unquoted cell: stop at a delimiter or line break. -/
def parseUnquoted : List Char → List Char × List Char
  | [] => ([], [])
  | ch :: rest =>
    if ch = commaChar ∨ ch = nlChar then ([], ch :: rest)
    else
      let p := parseUnquoted rest
      (ch :: p.1, p.2)

/-- Parse one cell, quoted or unquoted. -/
def parseCell (s : List Char) : List Char × List Char :=
  match s with
  | [] => ([], [])
  | ch :: rest => if ch = quoteChar then parseQuoted rest else parseUnquoted (ch :: rest)

/-- Parse the cells of one row up to and including its line terminator. -/
def parseRowAux : Nat → List Char → List (List Char) × List Char
  | 0, s => ([], s)
  | Nat.succ fuel, s =>
    let p := parseCell s
    match p.2 with
    | [] => ([p.1], [])
    | d :: rest =>
      if d = commaChar then
        let q := parseRowAux fuel rest
        (p.1 :: q.1, q.2)
      else if d = nlChar then ([p.1], rest)
      else ([p.1], d :: rest)

/-- Parse rows until the input is exhausted. -/
def parseCsvAux : Nat → List Char → List (List (List Char))
  | 0, _ => []
  | Nat.succ fuel, s =>
    if s.isEmpty then []
    else
      let rp := parseRowAux s.length s
      rp.1 :: parseCsvAux fuel rp.2

/-- pandas `read_csv` on the textual level: the list of rows of cells. -/
def parseCsv (s : List Char) : List (List (List Char)) :=
  parseCsvAux s.length s

/-- The header line `to_csv(index=False)` writes for the dashboard's
frame. -/
def headerRow : List (List Char) :=
  ["fixture".data, "league".data, "match_xg".data, "ex_bookings".data, "ex_corners".data]

/-- One data row: the cells of a record, numeric cells through the
library's number rendering `render`. -/
def recordCells (render : ℚ → List Char) (r : Record) : List (List Char) :=
  [r.fixture.data, r.league.data, render r.match_xg, render r.ex_bookings, render r.ex_corners]

/-- The downloaded file: header plus one line per filtered record. -/
def download_csv (render : ℚ → List Char) (rs : List Record) : List Char :=
  to_csv (headerRow :: rs.map (recordCells render))

/-- The fixed filename passed to `st.download_button`. -/
def download_filename : String := "filtered_odds_data.csv"

/-- `true` iff the input is empty or starts with a delimiter or line
terminator: the only contexts a serialized cell is followed by. -/
def isStop : List Char → Bool
  | [] => true
  | d :: _ => d == commaChar || d == nlChar

section FoldBounds

theorem le_foldl_max (a : ℚ) (l : List ℚ) : a ≤ l.foldl max a := by
  induction l generalizing a with
  | nil => exact le_refl a
  | cons x xs ih => exact le_trans (le_max_left a x) (ih (max a x))

theorem mem_le_foldl_max (a : ℚ) (l : List ℚ) : ∀ x ∈ l, x ≤ l.foldl max a := by
  induction l generalizing a with
  | nil => intro x hx; cases hx
  | cons y ys ih =>
    intro x hx
    rcases List.mem_cons.mp hx with h | h
    · subst h; exact le_trans (le_max_right a x) (le_foldl_max _ _)
    · exact ih (max a y) x h

theorem foldl_min_le (a : ℚ) (l : List ℚ) : l.foldl min a ≤ a := by
  induction l generalizing a with
  | nil => exact le_refl a
  | cons x xs ih => exact le_trans (ih (min a x)) (min_le_left a x)

theorem foldl_min_le_mem (a : ℚ) (l : List ℚ) : ∀ x ∈ l, l.foldl min a ≤ x := by
  induction l generalizing a with
  | nil => intro x hx; cases hx
  | cons y ys ih =>
    intro x hx
    rcases List.mem_cons.mp hx with h | h
    · subst h; exact le_trans (foldl_min_le (min a x) ys) (min_le_right a x)
    · exact ih (min a y) x h

/-- Every element of a non-empty series is at most `seriesMax`. -/
theorem mem_le_seriesMax (xs : List ℚ) : ∀ x ∈ xs, x ≤ seriesMax xs := by
  cases xs with
  | nil => intro x hx; cases hx
  | cons y ys =>
    intro x hx
    rcases List.mem_cons.mp hx with h | h
    · subst h; exact le_foldl_max _ _
    · exact mem_le_foldl_max y ys x h

/-- `seriesMin` is at most every element of a non-empty series. -/
theorem seriesMin_le_mem (xs : List ℚ) : ∀ x ∈ xs, seriesMin xs ≤ x := by
  cases xs with
  | nil => intro x hx; cases hx
  | cons y ys =>
    intro x hx
    rcases List.mem_cons.mp hx with h | h
    · subst h; exact foldl_min_le _ _
    · exact foldl_min_le_mem y ys x h

end FoldBounds

section FilterLemmas

/-- The two filter stages compose into a single `List.filter` with the
conjunction predicate. -/
theorem apply_filters_eq_filter (spec : FilterSpec) (rs : List Record) :
    apply_filters spec rs = rs.filter (filter_pred spec) := by
  cases hsel : spec.league with
  | none =>
    simp only [apply_filters, league_filter, add_search_filters, hsel]
    apply List.filter_congr
    intro r _
    simp [filter_pred, hsel]
  | some lg =>
    simp only [apply_filters, league_filter, add_search_filters, hsel, List.filter_filter]
    apply List.filter_congr
    intro r _
    simp [filter_pred, hsel, Bool.and_comm, Bool.and_assoc, Bool.and_left_comm]

/-- C3: the combined filter returns exactly the ordered subsequence of
records satisfying the filter specification, order-preserving and with
no effect on the base sequence (the embedding is pure). -/
theorem apply_filters_correct (spec : FilterSpec) (rs : List Record) :
    apply_filters spec rs = rs.filter (filter_pred spec)
    ∧ (apply_filters spec rs).Sublist rs
    ∧ ∀ r : Record, filter_pred spec r = true ↔
        ((spec.league = none ∨ spec.league = some r.league)
          ∧ spec.min_xg ≤ r.match_xg ∧ spec.min_bookings ≤ r.ex_bookings) := by
  refine ⟨apply_filters_eq_filter spec rs, ?_, ?_⟩
  · rw [apply_filters_eq_filter]; exact List.filter_sublist rs
  · intro r
    cases hsel : spec.league with
    | none => simp [filter_pred, hsel]
    | some lg =>
      simp only [filter_pred, hsel, Bool.and_eq_true, beq_iff_eq, decide_eq_true_eq]
      constructor
      · rintro ⟨⟨h1, h2⟩, h3⟩
        exact ⟨Or.inr (by rw [h1]), h2, h3⟩
      · rintro ⟨h1, h2, h3⟩
        rcases h1 with h1 | h1
        · cases h1
        · exact ⟨⟨(Option.some.inj h1).symm, h2⟩, h3⟩

/-- C6: filtering twice with the same specification equals filtering once. -/
theorem apply_filters_idempotent (spec : FilterSpec) (rs : List Record) :
    apply_filters spec (apply_filters spec rs) = apply_filters spec rs := by
  rw [apply_filters_eq_filter spec rs, apply_filters_eq_filter, List.filter_filter]
  apply List.filter_congr
  intro r _
  simp [Bool.and_self]

/-- C10: with both sliders at their default (the columns' minima over the
base sequence), the threshold filter keeps every record. -/
theorem filter_at_defaults_identity (rs : List Record) (_h : rs ≠ []) :
    add_search_filters (seriesMin (rs.map Record.match_xg))
      (seriesMin (rs.map Record.ex_bookings)) rs = rs := by
  apply List.filter_eq_self.mpr
  intro r hr
  have h1 := seriesMin_le_mem (rs.map Record.match_xg) r.match_xg
    (List.mem_map_of_mem Record.match_xg hr)
  have h2 := seriesMin_le_mem (rs.map Record.ex_bookings) r.ex_bookings
    (List.mem_map_of_mem Record.ex_bookings hr)
  simp [h1, h2]

/-- Witness for C10 at a concrete two-record sequence. -/
theorem filter_at_defaults_identity_witness :
    ([⟨"A", "X", 6, 4, 9⟩, ⟨"B", "Y", 2, 1, 3⟩] : List Record) ≠ []
    ∧ add_search_filters
        (seriesMin (([⟨"A", "X", 6, 4, 9⟩, ⟨"B", "Y", 2, 1, 3⟩] : List Record).map Record.match_xg))
        (seriesMin (([⟨"A", "X", 6, 4, 9⟩, ⟨"B", "Y", 2, 1, 3⟩] : List Record).map Record.ex_bookings))
        [⟨"A", "X", 6, 4, 9⟩, ⟨"B", "Y", 2, 1, 3⟩]
      = [⟨"A", "X", 6, 4, 9⟩, ⟨"B", "Y", 2, 1, 3⟩] :=
  ⟨by decide, filter_at_defaults_identity _ (by decide)⟩

end FilterLemmas

/-- C1 (code behaviour): the per-cell style function returns the same
style string for every value; the three branch outcomes are not
pairwise distinct. -/
theorem color_odds_uniform : ∀ v w : ℚ, color_odds v = color_odds w := by
  intro v w
  simp [color_odds]

/-- C2 (code behaviour): on the empty record sequence `get_statistics`
does not produce statistics (pandas `idxmax` raises `ValueError`,
modelled as `none`). -/
theorem get_statistics_empty : get_statistics ([] : List Record) = none := rfl

/-- C5 counterexample: a table lacking every expected column is loaded
without any error. -/
theorem load_data_no_schema_check :
    load_data (some ⟨["foo"], []⟩) = Except.ok ⟨["foo"], []⟩
    ∧ ¬ ("match_xg" ∈ (⟨["foo"], []⟩ : RawTable).cols) := by
  constructor
  · rfl
  · simp

/-- C5 (amended): the loader propagates the reader's file-missing error
and otherwise returns whatever table the reader produced, with no
schema validation of its own. -/
theorem load_data_passthrough :
    (∀ t : RawTable, load_data (some t) = Except.ok t)
    ∧ load_data none = Except.error LoadErr.fileNotFound :=
  ⟨fun _ => rfl, rfl⟩

section Rounding

theorem rhe_close (x : ℚ) : |(roundHalfEven x : ℚ) - x| ≤ 1/2 := by
  have h1 : (⌊x⌋ : ℚ) ≤ x := Int.floor_le x
  have h2 : x < ⌊x⌋ + 1 := Int.lt_floor_add_one x
  unfold roundHalfEven
  split
  · rename_i hlt
    rw [abs_le]
    constructor <;> linarith
  · rename_i hge
    split
    · rename_i hgt
      rw [abs_le]
      push_cast
      constructor <;> linarith
    · rename_i hng
      have heq : x - (⌊x⌋ : ℚ) = 1/2 := le_antisymm (not_lt.mp hng) (not_lt.mp hge)
      split
      · rw [abs_le]
        constructor <;> linarith
      · rw [abs_le]
        push_cast
        constructor <;> linarith

/-- Two-decimal rounding moves a value by at most half a cent. -/
theorem round2_close (q : ℚ) : |round2 q - q| ≤ 1/200 := by
  have h := rhe_close (q * 100)
  have he : round2 q - q = ((roundHalfEven (q * 100) : ℚ) - q * 100) / 100 := by
    unfold round2; ring
  rw [he, abs_div]
  have h100 : |(100 : ℚ)| = 100 := by norm_num
  rw [h100]
  linarith

end Rounding

section MeanBounds

theorem colMean_le_seriesMax (xs : List ℚ) (h : xs ≠ []) : colMean xs ≤ seriesMax xs := by
  have hlen : 0 < (xs.length : ℚ) := by
    have := List.length_pos.mpr h
    exact_mod_cast this
  rw [colMean, div_le_iff₀ hlen]
  have hs := List.sum_le_card_nsmul xs (seriesMax xs) (mem_le_seriesMax xs)
  rw [nsmul_eq_mul] at hs
  rw [mul_comm]
  exact hs

theorem seriesMin_le_colMean (xs : List ℚ) (h : xs ≠ []) : seriesMin xs ≤ colMean xs := by
  have hlen : 0 < (xs.length : ℚ) := by
    have := List.length_pos.mpr h
    exact_mod_cast this
  rw [colMean, le_div_iff₀ hlen]
  have hs := List.card_nsmul_le_sum xs (seriesMin xs) (seriesMin_le_mem xs)
  rw [nsmul_eq_mul] at hs
  rw [mul_comm]
  exact hs

end MeanBounds

section Argmax

theorem find?_cons_true (p : Record → Bool) (a : Record) (l : List Record) (h : p a = true) :
    (a :: l).find? p = some a :=
  List.find?_cons_of_pos l h

theorem find?_cons_false (p : Record → Bool) (a : Record) (l : List Record) (h : p a = false) :
    (a :: l).find? p = l.find? p :=
  List.find?_cons_of_neg l (by rw [h]; exact Bool.false_ne_true)

theorem argmaxFrom_stay (b : Record) (l : List Record) :
    (∀ t ∈ l, t.match_xg ≤ b.match_xg) → argmaxFrom b l = b := by
  induction l with
  | nil => intro _; rfl
  | cons r l' ih =>
    intro hall
    simp only [argmaxFrom]
    rw [if_neg (not_lt.mpr (hall r (List.mem_cons_self _ _)))]
    exact ih (fun t ht => hall t (List.mem_cons_of_mem _ ht))

/-- pandas `idxmax` duality: folding for the first strictly-greater
element finds exactly the first record attaining the column maximum. -/
theorem find_max_eq_argmax (b : Record) (l : List Record) :
    (b :: l).find?
      (fun t => decide (t.match_xg = (l.map Record.match_xg).foldl max b.match_xg))
      = some (argmaxFrom b l) := by
  induction l generalizing b with
  | nil =>
    simp [argmaxFrom]
  | cons r l' ih =>
    by_cases hlt : b.match_xg < r.match_xg
    · have hmax : max b.match_xg r.match_xg = r.match_xg := max_eq_right (le_of_lt hlt)
      have hMeq : ((r :: l').map Record.match_xg).foldl max b.match_xg
          = (l'.map Record.match_xg).foldl max r.match_xg := by
        simp [hmax]
      have hbne : ¬ (b.match_xg = (l'.map Record.match_xg).foldl max r.match_xg) := by
        intro hEq
        have hr := le_foldl_max r.match_xg (l'.map Record.match_xg)
        rw [← hEq] at hr
        exact absurd hlt (not_lt.mpr hr)
      simp only [argmaxFrom]
      rw [if_pos hlt]
      simp only [hMeq]
      rw [find?_cons_false
        (fun t => decide (t.match_xg = List.foldl max r.match_xg (List.map Record.match_xg l')))
        b (r :: l') (decide_eq_false hbne)]
      exact ih r
    · have hmax : max b.match_xg r.match_xg = b.match_xg := max_eq_left (not_lt.mp hlt)
      have hMeq : ((r :: l').map Record.match_xg).foldl max b.match_xg
          = (l'.map Record.match_xg).foldl max b.match_xg := by
        simp [hmax]
      simp only [argmaxFrom]
      rw [if_neg hlt]
      simp only [hMeq]
      by_cases hb : b.match_xg = (l'.map Record.match_xg).foldl max b.match_xg
      · have hstay : argmaxFrom b l' = b := by
          apply argmaxFrom_stay
          intro t ht
          rw [hb]
          exact mem_le_foldl_max b.match_xg (l'.map Record.match_xg) t.match_xg
            (List.mem_map_of_mem Record.match_xg ht)
        rw [hstay]
        exact find?_cons_true
          (fun t => decide (t.match_xg = List.foldl max b.match_xg (List.map Record.match_xg l')))
          b (r :: l') (decide_eq_true hb)
      · have hrne : ¬ (r.match_xg = (l'.map Record.match_xg).foldl max b.match_xg) := by
          intro hEq
          have h1 := le_foldl_max b.match_xg (l'.map Record.match_xg)
          have h2 : r.match_xg ≤ b.match_xg := not_lt.mp hlt
          rw [hEq] at h2
          exact hb (le_antisymm h1 h2)
        rw [find?_cons_false
            (fun t => decide (t.match_xg = List.foldl max b.match_xg (List.map Record.match_xg l')))
            b (r :: l') (decide_eq_false hb),
          find?_cons_false
            (fun t => decide (t.match_xg = List.foldl max b.match_xg (List.map Record.match_xg l')))
            r l' (decide_eq_false hrne)]
        have := ih b
        rw [find?_cons_false
            (fun t => decide (t.match_xg = List.foldl max b.match_xg (List.map Record.match_xg l')))
            b l' (decide_eq_false hb)] at this
        exact this

end Argmax

section StatsTheorems

/-- C4 (amended): each stored statistic is the exact column aggregate
already rounded to two decimal places (ties to even): a multiple of
`1/100` within `1/200` of the exact mean.  Rounding thus happens in the
stored statistics, not only at presentation. -/
theorem stats_store_rounded (rs : List Record) (h : rs ≠ []) :
    ∃ s : Stats, get_statistics rs = some s
      ∧ s.avg_match_xg = round2 (colMean (rs.map Record.match_xg))
      ∧ s.avg_bookings = round2 (colMean (rs.map Record.ex_bookings))
      ∧ s.avg_corners = round2 (colMean (rs.map Record.ex_corners))
      ∧ s.highest_xg_value = round2 (seriesMax (rs.map Record.match_xg))
      ∧ |s.avg_match_xg - colMean (rs.map Record.match_xg)| ≤ 1/200
      ∧ ∃ k : ℤ, s.avg_match_xg = (k : ℚ) / 100 := by
  cases rs with
  | nil => exact absurd rfl h
  | cons r rest =>
    exact ⟨_, rfl, rfl, rfl, rfl, rfl, round2_close _, ⟨roundHalfEven _, rfl⟩⟩

/-- Witness for C4 at a concrete one-record sequence. -/
theorem stats_store_rounded_witness :
    ([⟨"A", "X", 1, 2, 3⟩] : List Record) ≠ []
    ∧ ∃ s : Stats, get_statistics [⟨"A", "X", 1, 2, 3⟩] = some s
      ∧ s.avg_match_xg = round2 (colMean (([⟨"A", "X", 1, 2, 3⟩] : List Record).map Record.match_xg))
      ∧ s.avg_bookings = round2 (colMean (([⟨"A", "X", 1, 2, 3⟩] : List Record).map Record.ex_bookings))
      ∧ s.avg_corners = round2 (colMean (([⟨"A", "X", 1, 2, 3⟩] : List Record).map Record.ex_corners))
      ∧ s.highest_xg_value = round2 (seriesMax (([⟨"A", "X", 1, 2, 3⟩] : List Record).map Record.match_xg))
      ∧ |s.avg_match_xg - colMean (([⟨"A", "X", 1, 2, 3⟩] : List Record).map Record.match_xg)| ≤ 1/200
      ∧ ∃ k : ℤ, s.avg_match_xg = (k : ℚ) / 100 :=
  ⟨by decide, stats_store_rounded [⟨"A", "X", 1, 2, 3⟩] (by decide)⟩

/-- C7 (amended): the statistics identify the first record attaining the
maximum `match_xg` (first occurrence in sequence order) and report that
maximum rounded to two decimal places. -/
theorem stats_highest_xg_first (rs : List Record) (h : rs ≠ []) :
    ∃ (s : Stats) (m : Record), get_statistics rs = some s
      ∧ rs.find? (fun t => decide (t.match_xg = seriesMax (rs.map Record.match_xg))) = some m
      ∧ s.highest_xg_match = m.fixture
      ∧ m.match_xg = seriesMax (rs.map Record.match_xg)
      ∧ s.highest_xg_value = round2 (seriesMax (rs.map Record.match_xg)) := by
  cases rs with
  | nil => exact absurd rfl h
  | cons b l =>
    have hser : seriesMax ((b :: l).map Record.match_xg)
        = (l.map Record.match_xg).foldl max b.match_xg := rfl
    refine ⟨_, argmaxFrom b l, rfl, ?_, rfl, ?_, rfl⟩
    · rw [hser]
      exact find_max_eq_argmax b l
    · have hfound := List.find?_some (find_max_eq_argmax b l)
      rw [hser]
      exact of_decide_eq_true hfound

/-- Witness for C7 at a concrete two-record sequence. -/
theorem stats_highest_xg_first_witness :
    ([⟨"A", "X", 1, 2, 3⟩, ⟨"B", "Y", 4, 2, 3⟩] : List Record) ≠ []
    ∧ ∃ (s : Stats) (m : Record),
      get_statistics [⟨"A", "X", 1, 2, 3⟩, ⟨"B", "Y", 4, 2, 3⟩] = some s
      ∧ ([⟨"A", "X", 1, 2, 3⟩, ⟨"B", "Y", 4, 2, 3⟩] : List Record).find?
          (fun t => decide (t.match_xg
            = seriesMax (([⟨"A", "X", 1, 2, 3⟩, ⟨"B", "Y", 4, 2, 3⟩] : List Record).map Record.match_xg)))
          = some m
      ∧ s.highest_xg_match = m.fixture
      ∧ m.match_xg = seriesMax (([⟨"A", "X", 1, 2, 3⟩, ⟨"B", "Y", 4, 2, 3⟩] : List Record).map Record.match_xg)
      ∧ s.highest_xg_value
          = round2 (seriesMax (([⟨"A", "X", 1, 2, 3⟩, ⟨"B", "Y", 4, 2, 3⟩] : List Record).map Record.match_xg)) :=
  ⟨by decide, stats_highest_xg_first [⟨"A", "X", 1, 2, 3⟩, ⟨"B", "Y", 4, 2, 3⟩] (by decide)⟩

/-- C8 (amended): the exact arithmetic mean of each numeric column lies
between that column's minimum and maximum inclusive; the stored
statistic is that mean rounded to two decimals, hence within `1/200` of
the interval. -/
theorem mean_within_range (rs : List Record) (h : rs ≠ []) :
    ∃ s : Stats, get_statistics rs = some s
      ∧ seriesMin (rs.map Record.match_xg) ≤ colMean (rs.map Record.match_xg)
      ∧ colMean (rs.map Record.match_xg) ≤ seriesMax (rs.map Record.match_xg)
      ∧ seriesMin (rs.map Record.ex_bookings) ≤ colMean (rs.map Record.ex_bookings)
      ∧ colMean (rs.map Record.ex_bookings) ≤ seriesMax (rs.map Record.ex_bookings)
      ∧ seriesMin (rs.map Record.ex_corners) ≤ colMean (rs.map Record.ex_corners)
      ∧ colMean (rs.map Record.ex_corners) ≤ seriesMax (rs.map Record.ex_corners)
      ∧ s.avg_match_xg = round2 (colMean (rs.map Record.match_xg))
      ∧ |s.avg_match_xg - colMean (rs.map Record.match_xg)| ≤ 1/200 := by
  have hmap : ∀ f : Record → ℚ, rs.map f ≠ [] := by
    intro f hf
    exact h (List.map_eq_nil_iff.mp hf)
  cases rs with
  | nil => exact absurd rfl h
  | cons r rest =>
    exact ⟨_, rfl,
      seriesMin_le_colMean _ (hmap Record.match_xg),
      colMean_le_seriesMax _ (hmap Record.match_xg),
      seriesMin_le_colMean _ (hmap Record.ex_bookings),
      colMean_le_seriesMax _ (hmap Record.ex_bookings),
      seriesMin_le_colMean _ (hmap Record.ex_corners),
      colMean_le_seriesMax _ (hmap Record.ex_corners),
      rfl, round2_close _⟩

/-- Witness for C8 at a concrete two-record sequence. -/
theorem mean_within_range_witness :
    ([⟨"A", "X", 6, 4, 9⟩, ⟨"B", "Y", 2, 1, 3⟩] : List Record) ≠ []
    ∧ ∃ s : Stats, get_statistics [⟨"A", "X", 6, 4, 9⟩, ⟨"B", "Y", 2, 1, 3⟩] = some s
      ∧ seriesMin (([⟨"A", "X", 6, 4, 9⟩, ⟨"B", "Y", 2, 1, 3⟩] : List Record).map Record.match_xg)
          ≤ colMean (([⟨"A", "X", 6, 4, 9⟩, ⟨"B", "Y", 2, 1, 3⟩] : List Record).map Record.match_xg)
      ∧ colMean (([⟨"A", "X", 6, 4, 9⟩, ⟨"B", "Y", 2, 1, 3⟩] : List Record).map Record.match_xg)
          ≤ seriesMax (([⟨"A", "X", 6, 4, 9⟩, ⟨"B", "Y", 2, 1, 3⟩] : List Record).map Record.match_xg)
      ∧ seriesMin (([⟨"A", "X", 6, 4, 9⟩, ⟨"B", "Y", 2, 1, 3⟩] : List Record).map Record.ex_bookings)
          ≤ colMean (([⟨"A", "X", 6, 4, 9⟩, ⟨"B", "Y", 2, 1, 3⟩] : List Record).map Record.ex_bookings)
      ∧ colMean (([⟨"A", "X", 6, 4, 9⟩, ⟨"B", "Y", 2, 1, 3⟩] : List Record).map Record.ex_bookings)
          ≤ seriesMax (([⟨"A", "X", 6, 4, 9⟩, ⟨"B", "Y", 2, 1, 3⟩] : List Record).map Record.ex_bookings)
      ∧ seriesMin (([⟨"A", "X", 6, 4, 9⟩, ⟨"B", "Y", 2, 1, 3⟩] : List Record).map Record.ex_corners)
          ≤ colMean (([⟨"A", "X", 6, 4, 9⟩, ⟨"B", "Y", 2, 1, 3⟩] : List Record).map Record.ex_corners)
      ∧ colMean (([⟨"A", "X", 6, 4, 9⟩, ⟨"B", "Y", 2, 1, 3⟩] : List Record).map Record.ex_corners)
          ≤ seriesMax (([⟨"A", "X", 6, 4, 9⟩, ⟨"B", "Y", 2, 1, 3⟩] : List Record).map Record.ex_corners)
      ∧ s.avg_match_xg
          = round2 (colMean (([⟨"A", "X", 6, 4, 9⟩, ⟨"B", "Y", 2, 1, 3⟩] : List Record).map Record.match_xg))
      ∧ |s.avg_match_xg
          - colMean (([⟨"A", "X", 6, 4, 9⟩, ⟨"B", "Y", 2, 1, 3⟩] : List Record).map Record.match_xg)| ≤ 1/200 :=
  ⟨by decide, mean_within_range [⟨"A", "X", 6, 4, 9⟩, ⟨"B", "Y", 2, 1, 3⟩] (by decide)⟩

end StatsTheorems

section ConcreteEval

attribute [local semireducible] Rat.mul Rat.add Rat.inv Rat.sub

/-- C4 counterexample: on match-xg values `1, 2, 2` the stored average
is `1.67`, not the exact mean `5/3`. -/
theorem stats_rounds_cex :
    (get_statistics
        [⟨"A", "L", 1, 0, 0⟩, ⟨"B", "L", 2, 0, 0⟩, ⟨"C", "L", 2, 0, 0⟩]).map Stats.avg_match_xg
      = some (167/100)
    ∧ colMean (([⟨"A", "L", 1, 0, 0⟩, ⟨"B", "L", 2, 0, 0⟩, ⟨"C", "L", 2, 0, 0⟩] : List Record).map
        Record.match_xg) = 5/3
    ∧ (167/100 : ℚ) ≠ 5/3 := by
  refine ⟨by decide, by decide, by decide⟩

/-- C7 counterexample: with maximum `match_xg` equal to `5/3` the
reported highest value is the rounded `1.67`, not the maximum itself. -/
theorem highest_value_rounded_cex :
    (get_statistics [⟨"A", "L", 5/3, 0, 0⟩]).map Stats.highest_xg_value = some (167/100)
    ∧ seriesMax (([⟨"A", "L", 5/3, 0, 0⟩] : List Record).map Record.match_xg) = 5/3
    ∧ (167/100 : ℚ) ≠ 5/3 := by
  refine ⟨by decide, by decide, by decide⟩

/-- C8 counterexample: for the single value `1.001` the stored mean
`round(1.001, 2) = 1.0` falls strictly below the column minimum. -/
theorem mean_out_of_range_cex :
    (get_statistics [⟨"A", "L", 1001/1000, 0, 0⟩]).map Stats.avg_match_xg = some 1
    ∧ seriesMin (([⟨"A", "L", 1001/1000, 0, 0⟩] : List Record).map Record.match_xg) = 1001/1000
    ∧ (1 : ℚ) < 1001/1000 := by
  refine ⟨by decide, by decide, by decide⟩

end ConcreteEval

section CsvRoundTrip

theorem parseQuoted_qnil : parseQuoted [quoteChar] = ([], []) := by
  simp [parseQuoted]

theorem parseQuoted_close (d : Char) (t : List Char) (h : d ≠ quoteChar) :
    parseQuoted (quoteChar :: d :: t) = ([], d :: t) := by
  simp [parseQuoted, h]

theorem parseQuoted_qq (rest2 : List Char) :
    parseQuoted (quoteChar :: quoteChar :: rest2)
      = (quoteChar :: (parseQuoted rest2).1, (parseQuoted rest2).2) := by
  simp [parseQuoted]

theorem parseQuoted_other (ch : Char) (rest : List Char) (h : ch ≠ quoteChar) :
    parseQuoted (ch :: rest) = (ch :: (parseQuoted rest).1, (parseQuoted rest).2) := by
  cases rest <;> simp [parseQuoted, h]

theorem parseQuoted_esc (c rest : List Char) (h : isStop rest = true) :
    parseQuoted (escQuotes c ++ quoteChar :: rest) = (c, rest) := by
  induction c with
  | nil =>
    simp only [escQuotes, List.nil_append]
    cases rest with
    | nil => exact parseQuoted_qnil
    | cons d t =>
      have hd : d ≠ quoteChar := by
        simp only [isStop, Bool.or_eq_true, beq_iff_eq] at h
        rcases h with h1 | h1 <;> subst h1 <;> decide
      exact parseQuoted_close d t hd
  | cons ch c' ih =>
    by_cases hq : ch = quoteChar
    · subst hq
      simp only [escQuotes, eq_self_iff_true, if_true, List.cons_append]
      rw [parseQuoted_qq, ih]
    · simp only [escQuotes, if_neg hq, List.cons_append]
      rw [parseQuoted_other ch _ hq, ih]

theorem parseUnquoted_plain (c rest : List Char)
    (hc : ∀ ch ∈ c, ¬(ch = commaChar ∨ ch = nlChar)) (h : isStop rest = true) :
    parseUnquoted (c ++ rest) = (c, rest) := by
  induction c with
  | nil =>
    cases rest with
    | nil => rfl
    | cons d t =>
      have hd : d = commaChar ∨ d = nlChar := by
        simp only [isStop, Bool.or_eq_true, beq_iff_eq] at h
        exact h
      simp [parseUnquoted, hd]
  | cons ch c' ih =>
    have hch := hc ch (List.mem_cons_self _ _)
    simp only [List.cons_append, parseUnquoted, if_neg hch, List.append_eq]
    rw [ih (fun x hx => hc x (List.mem_cons_of_mem _ hx))]

theorem needsQuote_false_forall (c : List Char) (h : needsQuote c = false) :
    ∀ ch ∈ c, ch ≠ commaChar ∧ ch ≠ quoteChar ∧ ch ≠ nlChar ∧ ch ≠ crChar := by
  intro ch hch
  simp only [needsQuote, List.any_eq_false, Bool.or_eq_true, beq_iff_eq, not_or] at h
  obtain ⟨⟨⟨h1, h2⟩, h3⟩, h4⟩ := h ch hch
  exact ⟨h1, h2, h3, h4⟩

theorem parseCell_esc (c rest : List Char) (h : isStop rest = true) :
    parseCell (escCell c ++ rest) = (c, rest) := by
  by_cases hq : needsQuote c = true
  · have hshape : escCell c ++ rest = quoteChar :: (escQuotes c ++ quoteChar :: rest) := by
      simp [escCell, hq]
    rw [hshape]
    have hcell : parseCell (quoteChar :: (escQuotes c ++ quoteChar :: rest))
        = parseQuoted (escQuotes c ++ quoteChar :: rest) := by
      simp [parseCell]
    rw [hcell]
    exact parseQuoted_esc c rest h
  · have hnq : needsQuote c = false := by
      revert hq; cases needsQuote c <;> simp
    have hall := needsQuote_false_forall c hnq
    simp only [escCell, hnq, Bool.false_eq_true, if_false]
    cases c with
    | nil =>
      cases rest with
      | nil => simp [parseCell]
      | cons d t =>
        have hd : d = commaChar ∨ d = nlChar := by
          simp only [isStop, Bool.or_eq_true, beq_iff_eq] at h
          exact h
        have hdq : d ≠ quoteChar := by
          rcases hd with h1 | h1 <;> subst h1 <;> decide
        simp only [List.nil_append, parseCell, if_neg hdq]
        simp [parseUnquoted, hd]
    | cons ch c' =>
      have hch := hall ch (List.mem_cons_self _ _)
      simp only [List.cons_append, parseCell, if_neg hch.2.1]
      have := parseUnquoted_plain (ch :: c') rest
        (fun x hx => by
          have hx2 := hall x hx
          rintro (h1 | h1)
          · exact hx2.1 h1
          · exact hx2.2.2.1 h1) h
      simpa using this

theorem parseRowAux_ser (c : List Char) (row' : List (List Char)) (rest : List Char) :
    ∀ fuel : Nat, (c :: row').length ≤ fuel →
    parseRowAux fuel (serRow (c :: row') ++ nlChar :: rest) = (c :: row', rest) := by
  induction row' generalizing c with
  | nil =>
    intro fuel hf
    cases fuel with
    | zero => simp at hf
    | succ f =>
      simp only [serRow, parseRowAux]
      rw [parseCell_esc c (nlChar :: rest) (by simp [isStop])]
      have h1 : ¬ (nlChar = commaChar) := by decide
      simp [h1]
  | cons c2 row'' ih =>
    intro fuel hf
    cases fuel with
    | zero => simp at hf
    | succ f =>
      have hshape : serRow (c :: c2 :: row'') ++ nlChar :: rest
          = escCell c ++ commaChar :: (serRow (c2 :: row'') ++ nlChar :: rest) := by
        simp [serRow, List.append_assoc]
      rw [hshape]
      simp only [parseRowAux]
      rw [parseCell_esc c (commaChar :: (serRow (c2 :: row'') ++ nlChar :: rest))
        (by simp [isStop])]
      dsimp only
      rw [ih c2 f (by simp at hf ⊢; omega)]
      simp

theorem length_le_serRow (c : List Char) (row' : List (List Char)) :
    (c :: row').length ≤ (serRow (c :: row')).length + 1 := by
  induction row' generalizing c with
  | nil => simp [serRow]
  | cons c2 row'' ih =>
    have h2 := ih c2
    simp only [serRow, List.length_append, List.length_cons] at h2 ⊢
    omega

theorem parseCsvAux_to_csv (table : List (List (List Char))) :
    ∀ fuel : Nat, (∀ row ∈ table, row ≠ []) → (to_csv table).length ≤ fuel →
    parseCsvAux fuel (to_csv table) = table := by
  induction table with
  | nil =>
    intro fuel _ _
    cases fuel <;> simp [to_csv, parseCsvAux]
  | cons row ts ih =>
    intro fuel hne hf
    have hrow : row ≠ [] := hne row (List.mem_cons_self _ _)
    obtain ⟨c, row', rfl⟩ : ∃ c row', row = c :: row' := by
      cases row with
      | nil => exact absurd rfl hrow
      | cons a b => exact ⟨a, b, rfl⟩
    have hlen : (to_csv ((c :: row') :: ts)).length
        = (serRow (c :: row')).length + 1 + (to_csv ts).length := by
      show (serRow (c :: row') ++ nlChar :: to_csv ts).length = _
      simp [List.length_append]
      omega
    cases fuel with
    | zero =>
      rw [hlen] at hf
      omega
    | succ f =>
      simp only [to_csv, parseCsvAux]
      have hsne : (serRow (c :: row') ++ nlChar :: to_csv ts).isEmpty = false := by
        cases hsr : serRow (c :: row') <;> simp [List.isEmpty]
      rw [if_neg (by rw [hsne]; exact Bool.false_ne_true)]
      have hfl : (c :: row').length ≤ (serRow (c :: row') ++ nlChar :: to_csv ts).length := by
        have h2 := length_le_serRow c row'
        simp only [List.length_append, List.length_cons] at h2 ⊢
        omega
      rw [parseRowAux_ser c row' (to_csv ts) _ hfl]
      have hft : (to_csv ts).length ≤ f := by
        rw [hlen] at hf
        omega
      rw [ih f (fun r hr => hne r (List.mem_cons_of_mem _ hr)) hft]

/-- The CSV serializer round-trips: re-parsing the produced text yields
exactly the serialized rows (with their cells), for any table whose rows
have at least one cell. -/
theorem parse_to_csv (table : List (List (List Char))) (h : ∀ row ∈ table, row ≠ []) :
    parseCsv (to_csv table) = table :=
  parseCsvAux_to_csv table _ h (le_refl _)

/-- C9: the downloaded file re-parses to exactly the header row plus the
filtered records' cells — the fields and the row count are reproduced for
every filtered sequence and every numeric rendering — and it is offered
under the fixed filename `filtered_odds_data.csv`. -/
theorem download_roundtrip (render : ℚ → List Char) (rs : List Record) :
    parseCsv (download_csv render rs) = headerRow :: rs.map (recordCells render)
    ∧ (parseCsv (download_csv render rs)).length = rs.length + 1
    ∧ download_filename = "filtered_odds_data.csv" := by
  have h : ∀ row ∈ headerRow :: rs.map (recordCells render), row ≠ [] := by
    intro row hrow
    rcases List.mem_cons.mp hrow with h1 | h1
    · subst h1
      simp [headerRow]
    · obtain ⟨r, _, rfl⟩ := List.mem_map.mp h1
      simp [recordCells]
  have hp := parse_to_csv _ h
  refine ⟨hp, ?_, rfl⟩
  rw [show parseCsv (download_csv render rs) = headerRow :: rs.map (recordCells render) from hp]
  simp

end CsvRoundTrip

end Wsh

